import Mathlib

/-!
Verification of the wallet household-ledger application (src/wallet/wallet.py).

The Python source is shallowly embedded: every interactive input helper is
modelled by the pure check performed on one attempt (the surrounding
`while True` re-prompt loop is the caller's concern), file-system state is
passed explicitly (`Option CsvFile`: `none` models a missing file), and
Python numbers are modelled with `Nat`/`Int`/`Rat`.  Python `float` values
are modelled exactly: a decimal literal is parsed to the exact rational it
denotes and then rounded to the nearest IEEE-754 binary64 value
(round-to-nearest, ties-to-even), represented as a `Rat`; `inf` and `nan`
are separate constructors.  Character classes of the CPython `_strptime`
regexes and of `int()` / `float()` are modelled over their ASCII ranges
(code points, via `Char.toNat`).
-/

set_option maxRecDepth 16000
set_option maxHeartbeats 1600000

namespace Wallet

/-- ASCII decimal digit, as matched by the `\d` class on code points 48-57. -/
def isDigC (c : Char) : Bool := decide (48 ≤ c.toNat ∧ c.toNat ≤ 57)

/-- Numeric value of a digit character. -/
def dval (c : Char) : Nat := c.toNat - 48

/-- The `/` character (code point 47). -/
def isSlash (c : Char) : Bool := decide (c.toNat = 47)

/-! ## Date validation (`input_date`, wallet.py lines 29-37)

`input_date` accepts its input exactly when
`datetime.strptime(date, "%Y/%m/%d")` does not raise `ValueError`.
CPython's `_strptime` compiles the format to the regular expression
`(?P<Y>\d\d\d\d)/(?P<m>1[0-2]|0[1-9]|[1-9])/(?P<d>3[01]|[12]\d|0[1-9]|[1-9])`,
requires the match to consume the whole string ("unconverted data remains"
otherwise), and then builds `datetime(year, month, day)`, which raises
`ValueError` unless `1 <= year` and `day` is at most the length of the month
(`datetime.MINYEAR = 1`; `\d{4}` bounds the year by 9999 = `datetime.MAXYEAR`).

The regex alternations are translated to a deterministic parser: whenever a
two-character month alternative matches, its second character is a digit, so
the one-character alternative (which must be followed by `/`) can never
rescue a failed continuation; the day group ends the pattern, so its
preferred (longest) match is final and any remaining characters make
`strptime` fail. -/

/-- The month group `1[0-2]|0[1-9]|[1-9]` followed by the rest of the input:
returns the month value and the characters left after the group. -/
def monthParse : List Char → Option (Nat × List Char)
  | c1 :: c2 :: rest =>
    if c1.toNat = 49 ∧ 48 ≤ c2.toNat ∧ c2.toNat ≤ 50 then some (10 + dval c2, rest)
    else if c1.toNat = 48 ∧ 49 ≤ c2.toNat ∧ c2.toNat ≤ 57 then some (dval c2, rest)
    else if 49 ≤ c1.toNat ∧ c1.toNat ≤ 57 then some (dval c1, c2 :: rest)
    else none
  | [c1] => if 49 ≤ c1.toNat ∧ c1.toNat ≤ 57 then some (dval c1, []) else none
  | [] => none

/-- The day group `3[01]|[12]\d|0[1-9]|[1-9]`, which must consume the whole
remaining input (a shorter match leaves unconverted data and `strptime`
raises `ValueError`). -/
def dayParse : List Char → Option Nat
  | [c1] => if 49 ≤ c1.toNat ∧ c1.toNat ≤ 57 then some (dval c1) else none
  | [c1, c2] =>
    if c1.toNat = 51 ∧ (c2.toNat = 48 ∨ c2.toNat = 49) then some (30 + dval c2)
    else if (49 ≤ c1.toNat ∧ c1.toNat ≤ 50) ∧ (48 ≤ c2.toNat ∧ c2.toNat ≤ 57) then
      some (10 * dval c1 + dval c2)
    else if c1.toNat = 48 ∧ 49 ≤ c2.toNat ∧ c2.toNat ≤ 57 then some (dval c2)
    else none
  | _ => none

/-- Gregorian leap-year rule used by `datetime`. -/
def isLeap (y : Nat) : Bool := y % 4 == 0 && (y % 100 != 0 || y % 400 == 0)

/-- The `_DAYS_IN_MONTH` table of CPython's `datetime` module. -/
def daysInMonth (y m : Nat) : Nat :=
  if m = 2 then (if isLeap y then 29 else 28)
  else if m = 4 ∨ m = 6 ∨ m = 9 ∨ m = 11 then 30
  else 31

/-- Range checks performed by the `datetime(year, month, day)` constructor. -/
def dateOkNums (y m d : Nat) : Bool :=
  decide (1 ≤ y ∧ y ≤ 9999 ∧ 1 ≤ m ∧ m ≤ 12 ∧ 1 ≤ d ∧ d ≤ daysInMonth y m)

/-- Year value of the four digit characters matched by `\d\d\d\d`. -/
def yval (y1 y2 y3 y4 : Char) : Nat :=
  1000 * dval y1 + 100 * dval y2 + 10 * dval y3 + dval y4

/-- Month/day tail of the pattern: the input after `YYYY/`. -/
def mdParse (y : Nat) (rest : List Char) : Bool :=
  match monthParse rest with
  | some (m, rest2) =>
    match rest2 with
    | c2 :: rest3 =>
      isSlash c2 &&
        (match dayParse rest3 with
         | some d => decide (1 ≤ y) && decide (d ≤ daysInMonth y m)
         | none => false)
    | [] => false
  | none => false

/-- One attempt of `input_date`: `true` exactly when
`datetime.strptime(s, "%Y/%m/%d")` succeeds, so the string is returned;
`false` when `ValueError` is caught and the loop re-prompts. -/
def input_date_accepts (s : String) : Bool :=
  match s.data with
  | y1 :: y2 :: y3 :: y4 :: c :: rest =>
    isDigC y1 && isDigC y2 && isDigC y3 && isDigC y4 && isSlash c &&
      mdParse (yval y1 y2 y3 y4) rest
  | _ => false

/-! Specification-side date patterns, written from the spec's words. -/

/-- All characters are ASCII digits. -/
def allDig (cs : List Char) : Bool := cs.all isDigC

/-- Decimal value of a digit string. -/
def partVal (cs : List Char) : Nat := cs.foldl (fun a c => 10 * a + dval c) 0

/-- Written from the spec: the string matches `YYYY/MM/DD` with a
zero-padded 4-digit year and zero-padded two-digit month and day,
and MM/DD form a real calendar date. -/
def matchesPaddedDate (s : String) : Bool :=
  match s.data with
  | [y1, y2, y3, y4, s1, m1, m2, s2, d1, d2] =>
    isSlash s1 && isSlash s2 && allDig [y1, y2, y3, y4] && allDig [m1, m2] &&
      allDig [d1, d2] &&
      dateOkNums (partVal [y1, y2, y3, y4]) (partVal [m1, m2]) (partVal [d1, d2])
  | _ => false

/-- Month and day fields with given digit lists: real calendar date. -/
def mdOk (y : Nat) (mcs dcs : List Char) : Bool :=
  allDig mcs && allDig dcs && dateOkNums y (partVal mcs) (partVal dcs)

/-- Month/day part of the amended pattern: month and day are one or two
digit fields separated by `/`, forming a real calendar date. -/
def matchesMD (y : Nat) : List Char → Bool
  | [a, b, c] => isSlash b && mdOk y [a] [c]
  | [a, b, c, d] => (isSlash b && mdOk y [a] [c, d]) || (isSlash c && mdOk y [a, b] [d])
  | [a, b, c, d, e] => isSlash c && mdOk y [a, b] [d, e]
  | _ => false

/-- Amended pattern: 4-digit year `/` month `/` day where month and day are
one or two digits each (zero-padding optional) and form a real calendar
date. -/
def matchesFlexDate (s : String) : Bool :=
  match s.data with
  | y1 :: y2 :: y3 :: y4 :: c :: rest =>
    isDigC y1 && isDigC y2 && isDigC y3 && isDigC y4 && isSlash c &&
      matchesMD (yval y1 y2 y3 y4) rest
  | _ => false

/-! ## Python number parsing: `int()` and `float()`

`input_amount` (lines 57-63) evaluates `int(float(text))`, catching only
`ValueError`.  `input_category` (lines 40-54) evaluates `int(text)`.
The parsers below model CPython's accepted syntax over ASCII: surrounding
whitespace, an optional sign, digit groups with single underscores between
digits, and for `float()` an optional fraction, an optional exponent and
the case-insensitive special words `inf`/`infinity`/`nan`. -/

/-- ASCII whitespace stripped by `int()`/`float()`. -/
def isWS (c : Char) : Bool :=
  decide (c.toNat = 32 ∨ c.toNat = 9 ∨ c.toNat = 10 ∨ c.toNat = 13 ∨
    c.toNat = 11 ∨ c.toNat = 12)

/-- Strip leading and trailing whitespace. -/
def trimWS (cs : List Char) : List Char :=
  ((cs.dropWhile isWS).reverse.dropWhile isWS).reverse

/-- Code point after ASCII lower-casing (for the `inf`/`nan` words). -/
def lowerN (c : Char) : Nat :=
  if 65 ≤ c.toNat ∧ c.toNat ≤ 90 then c.toNat + 32 else c.toNat

/-- Optional `+`/`-` sign; returns whether the value is negated. -/
def parseSign : List Char → Bool × List Char
  | c :: rest =>
    if c.toNat = 43 then (false, rest)
    else if c.toNat = 45 then (true, rest)
    else (false, c :: rest)
  | [] => (false, [])

/-- Digit group with single underscores allowed between digits:
accumulates the value and the number of digits, returns the leftover. -/
def digitsUAux : Nat → Nat → List Char → Nat × Nat × List Char
  | acc, k, [] => (acc, k, [])
  | acc, k, [c] => if isDigC c then (10 * acc + dval c, k + 1, []) else (acc, k, [c])
  | acc, k, c :: d :: rest =>
    if isDigC c then digitsUAux (10 * acc + dval c) (k + 1) (d :: rest)
    else if c.toNat = 95 ∧ isDigC d then digitsUAux (10 * acc + dval d) (k + 1) rest
    else (acc, k, c :: d :: rest)

/-- A digit group must start with a digit (no leading underscore). -/
def parseUDigits (cs : List Char) : Option (Nat × Nat × List Char) :=
  match cs with
  | c :: _ => if isDigC c then some (digitsUAux 0 0 cs) else none
  | [] => none

/-- Exact rational value of a parsed decimal literal:
integer part `ip`, fraction digits of value `fp` and length `flen`,
exponent `ev` with sign `eneg`; the value is
`(ip + fp / 10^flen) * 10^(±ev)`, built as one integer fraction. -/
def ratOfParts (ip fp flen : Nat) (eneg : Bool) (ev : Nat) : Rat :=
  if eneg then
    Rat.divInt ((ip * 10 ^ flen + fp : Nat) : Int) ((10 ^ flen * 10 ^ ev : Nat) : Int)
  else
    Rat.divInt (((ip * 10 ^ flen + fp) * 10 ^ ev : Nat) : Int) ((10 ^ flen : Nat) : Int)

/-- Optional exponent part, which must end the literal. -/
def parseExpPart (ip fp flen : Nat) (rest2 : List Char) : Option Rat :=
  match rest2 with
  | [] => some (ratOfParts ip fp flen false 0)
  | c :: r =>
    if c.toNat = 101 ∨ c.toNat = 69 then
      let (eneg, r2) := parseSign r
      match parseUDigits r2 with
      | some (ev, _, []) => some (ratOfParts ip fp flen eneg ev)
      | _ => none
    else none

/-- Fraction part after the integer part: `float()` requires at least one
digit in the mantissa (`"1."` and `".5"` are valid, `"."` is not). -/
def parseFracExp (ip : Nat) (hasInt : Bool) (rest1 : List Char) : Option Rat :=
  match rest1 with
  | c :: r =>
    if c.toNat = 46 then
      match parseUDigits r with
      | some (fp, k, rest2) => parseExpPart ip fp k rest2
      | none => if hasInt then parseExpPart ip 0 0 r else none
    else if hasInt then parseExpPart ip 0 0 rest1 else none
  | [] => if hasInt then parseExpPart ip 0 0 [] else none

/-- Numeric (non-special) `float()` literal after the sign: exact value. -/
def parseNumCore (cs : List Char) : Option Rat :=
  match parseUDigits cs with
  | some (ip, _, rest1) => parseFracExp ip true rest1
  | none => parseFracExp 0 false cs

/-- A `float()` literal before rounding. -/
inductive FloatLit where
  | num (q : Rat)
  | inf (neg : Bool)
  | nan
deriving DecidableEq

/-- Exact parse of a `float()` argument: the decimal value it denotes
(before binary64 rounding), or the special words, or failure
(`ValueError`). -/
def floatLitBody (neg : Bool) (cs1 : List Char) : Option FloatLit :=
  if cs1.map lowerN = [105, 110, 102] ∨
      cs1.map lowerN = [105, 110, 102, 105, 110, 105, 116, 121] then
    some (.inf neg)
  else if cs1.map lowerN = [110, 97, 110] then some .nan
  else
    match parseNumCore cs1 with
    | some q => some (.num (if neg then -q else q))
    | none => none

def floatLitVal (s : String) : Option FloatLit :=
  match parseSign (trimWS s.data) with
  | (neg, cs1) => floatLitBody neg cs1

/-! IEEE-754 binary64 rounding, modelled exactly over `Rat`:
round to nearest, ties to even, 53-bit significand, exponent range down to
subnormals at `2^-1074`, overflow to infinity at or above
`2^1024 - 2^970`. -/

/-- Floor base-2 logarithm of a positive natural number
(fuel-based so that it reduces in the kernel). -/
def natLog2F : Nat → Nat → Nat
  | 0, _ => 0
  | fuel + 1, n => if n < 2 then 0 else natLog2F fuel (n / 2) + 1

/-- Floor base-2 logarithm. -/
def natLog2 (n : Nat) : Nat := natLog2F n n

/-- Decide `a < 2^k` on the numerator and denominator. -/
def ltPow2 (a : Rat) (k : Int) : Bool :=
  if 0 ≤ k then decide (a.num < ((2 ^ k.toNat : Nat) : Int) * (a.den : Int))
  else decide (a.num * ((2 ^ (-k).toNat : Nat) : Int) < (a.den : Int))

/-- For `a > 0`, the unique `e` with `2^e ≤ a < 2^(e+1)`: computed from a
two-candidate estimate and fixed by direct comparison. -/
def ratLog2 (a : Rat) : Int :=
  let e0 : Int := (natLog2 a.num.natAbs : Int) - (natLog2 a.den : Int)
  if ltPow2 a e0 then e0 - 1 else if ltPow2 a (e0 + 1) then e0 else e0 + 1

/-- Round `n / d` (with `d > 0`) to the nearest integer, ties to even:
`f` is the floor, `r` the remainder, and `2r` is compared with `d`. -/
def roundHalfEvenInt (n d : Int) : Int :=
  let f := Int.fdiv n d
  let r := n - f * d
  if 2 * r < d then f
  else if d < 2 * r then f + 1
  else if f % 2 = 0 then f else f + 1

/-- First power of two beyond the binary64 range: rounded values at or
above it overflow to infinity. -/
def twoPow1024 : Nat := 2 ^ 1024

/-- Nearest binary64 value of an exact rational; `none` is overflow to
infinity.  The significand is `m = round(|q| * 2^(-ex))` with
`ex = max(e - 52, -1074)`, giving 53 significant bits for normal values
and the subnormal precision floor at `2^(-1074)`; the result overflows
exactly when the rounded value `m * 2^ex` reaches `2^1024`. -/
def roundToDouble (q : Rat) : Option Rat :=
  if q.num = 0 then some 0
  else
    let a : Rat := if q.num < 0 then -q else q
    let e := ratLog2 a
    let ex : Int := max (e - 52) (-1074)
    let m :=
      if 0 ≤ ex then roundHalfEvenInt a.num ((a.den : Int) * ((2 ^ ex.toNat : Nat) : Int))
      else roundHalfEvenInt (a.num * ((2 ^ (-ex).toNat : Nat) : Int)) (a.den : Int)
    let overflow : Bool :=
      if 0 ≤ ex then decide ((twoPow1024 : Int) ≤ m * ((2 ^ ex.toNat : Nat) : Int))
      else decide ((twoPow1024 : Int) * ((2 ^ (-ex).toNat : Nat) : Int) ≤ m)
    if overflow then none
    else
      let v : Rat :=
        if 0 ≤ ex then Rat.divInt (m * ((2 ^ ex.toNat : Nat) : Int)) 1
        else Rat.divInt m ((2 ^ (-ex).toNat : Nat) : Int)
      some (if q.num < 0 then -v else v)

/-- A Python `float` value. -/
inductive PyFloat where
  | finite (q : Rat)
  | inf (neg : Bool)
  | nan
deriving DecidableEq

/-- Python `float(s)`: exact decimal parse followed by binary64 rounding;
`none` models `ValueError`. -/
def pyFloat (s : String) : Option PyFloat :=
  match floatLitVal s with
  | none => none
  | some (.inf neg) => some (.inf neg)
  | some .nan => some .nan
  | some (.num q) =>
    match roundToDouble q with
    | some r => some (.finite r)
    | none => some (.inf (decide (q.num < 0)))

/-- Python `int()` applied to a finite float: truncation toward zero. -/
def truncRat (q : Rat) : Int := if q < 0 then -(Rat.floor (-q)) else Rat.floor q

/-- Outcome of one attempt of `input_amount`: a returned value, a caught
`ValueError` (the loop prints a message and re-prompts), or an uncaught
`OverflowError` from `int()` on an infinite float, which escapes the
`except ValueError` handler and terminates the program. -/
inductive AmountAttempt where
  | value (n : Int)
  | retry
  | overflowCrash
deriving DecidableEq

/-- One attempt of `input_amount` (wallet.py lines 57-63):
`int(float(s))` under `except ValueError`. -/
def input_amount_attempt (s : String) : AmountAttempt :=
  match pyFloat s with
  | none => .retry
  | some (.finite r) => .value (truncRat r)
  | some (.inf _) => .overflowCrash
  | some .nan => .retry

/-- Python `int(s)` for a string argument; `none` models `ValueError`. -/
def pyInt (s : String) : Option Int :=
  match parseSign (trimWS s.data) with
  | (neg, cs1) =>
    match parseUDigits cs1 with
    | some (v, _, []) => some (if neg then -(v : Int) else (v : Int))
    | _ => none

/-- One attempt of `input_category` (wallet.py lines 40-54):
`int(s) - 1` indexes `categories` when `0 <= index < len(categories)`;
`none` models both the caught `ValueError` and the out-of-range branch,
each of which re-prompts. -/
def input_category_attempt (s : String) (categories : List String) : Option String :=
  match pyInt s with
  | none => none
  | some n =>
    if 0 ≤ n - 1 ∧ n - 1 < (categories.length : Int) then categories.get? (n - 1).toNat
    else none

/-! Decimal rendering, modelling Python `str()` of an `int` (used by the
CSV writer for the amount field, and to feed integer inputs to the
category prompt). -/

/-- Decimal digits of `n`, least significant first (fuel-based so that it
reduces in the kernel; `natDigsRev` supplies enough fuel). -/
def natDigsRevF : Nat → Nat → List Char
  | 0, n => [Char.ofNat (48 + n)]
  | fuel + 1, n =>
    if n < 10 then [Char.ofNat (48 + n)]
    else Char.ofNat (48 + n % 10) :: natDigsRevF fuel (n / 10)

/-- Decimal digits of `n`, least significant first. -/
def natDigsRev (n : Nat) : List Char := natDigsRevF n n

/-- Python `str(n)` for a natural number. -/
def renderNat (n : Nat) : String := ⟨(natDigsRev n).reverse⟩

/-- Python `str(i)` for an integer. -/
def renderInt (i : Int) : String :=
  if i < 0 then ⟨Char.ofNat 45 :: (natDigsRev (-i).toNat).reverse⟩ else renderNat i.toNat

/-! ## The CSV store (`save_to_csv` lines 82-93, `load_from_csv` lines 98-121)

The file system is passed explicitly: `none` models a path with no file
(`open` raises `FileNotFoundError`), `some f` an existing CSV file.  The
`csv` module's quoting round-trips arbitrary field strings, so a file is
modelled at the row level: a header row and a list of data rows. -/

/-- A CSV file as seen through the `csv` module: the header row and the
data rows. -/
structure CsvFile where
  header : List String
  rows : List (List String)
deriving DecidableEq

/-- A transaction record as built by `add_transaction` (lines 66-79):
date and category strings and an integer amount from `input_amount`. -/
structure TRecord where
  date : String
  category : String
  amount : Int
deriving DecidableEq

/-- The function `save_to_csv`: `DictWriter` writes the header `日付,カテゴリ,金額` and
then one row per record, each field via `str()`. -/
def save_to_csv (transaction_list : List TRecord) : CsvFile :=
  { header := ["日付", "カテゴリ", "金額"],
    rows := transaction_list.map (fun r => [r.date, r.category, renderInt r.amount]) }

/-- A record as returned by `load_from_csv`: the `日付` and `カテゴリ`
values are whatever `DictReader` produced (`none` models Python `None`
filled in for a short row), and `金額` has been through `float()`. -/
structure LRecord where
  date : Option String
  category : Option String
  amount : PyFloat
deriving DecidableEq

/-- Python exception kinds distinguished by the embedded code paths. -/
inductive PyErr where
  | valueError
  | keyError
  | typeError
deriving DecidableEq

/-- Result of `load_from_csv` on an existing file: the loaded list, or the
uncaught exception that escapes (only `FileNotFoundError` is handled). -/
inductive LoadResult where
  | ok (records : List LRecord)
  | error (e : PyErr)
deriving DecidableEq

/-- Index of the first occurrence of `key`. -/
def idxOf? (key : String) : List String → Option Nat
  | [] => none
  | h :: t => if h = key then some 0 else (idxOf? key t).map (· + 1)

/-- Index of the last occurrence of `key` in the header (later duplicate
header names overwrite earlier ones in `dict(zip(...))`). -/
def lastIdx (header : List String) (key : String) : Option Nat :=
  match idxOf? key header.reverse with
  | none => none
  | some j => some (header.length - 1 - j)

/-- Lookup `row[key]` on the dict built by `DictReader` for one data row:
`none` is a `KeyError` (key absent from the header); `some none` is the
`restval` `None` filled in when the row is shorter than the header. -/
def dictGet (header row : List String) (key : String) : Option (Option String) :=
  match lastIdx header key with
  | none => none
  | some i =>
    match row.get? i with
    | some v => some (some v)
    | none => some none

/-- Result of reading one data row. -/
inductive RowResult where
  | ok (r : LRecord)
  | error (e : PyErr)
deriving DecidableEq

/-- One data row through the dict comprehension of `load_from_csv`:
`row["日付"]`, `row["カテゴリ"]`, then `float(row["金額"])`.  A missing
key raises `KeyError`; `float(None)` raises `TypeError`; an unparseable
amount string raises `ValueError`. -/
def readRow (header row : List String) : RowResult :=
  match dictGet header row "日付" with
  | none => .error .keyError
  | some d =>
    match dictGet header row "カテゴリ" with
    | none => .error .keyError
    | some c =>
      match dictGet header row "金額" with
      | none => .error .keyError
      | some none => .error .typeError
      | some (some s) =>
        match pyFloat s with
        | none => .error .valueError
        | some f => .ok ⟨d, c, f⟩

/-- Read the data rows in order; the first exception escapes. -/
def loadRows (header : List String) : List (List String) → LoadResult
  | [] => .ok []
  | row :: rest =>
    match readRow header row with
    | .error e => .error e
    | .ok r =>
      match loadRows header rest with
      | .ok rs => .ok (r :: rs)
      | .error e => .error e

/-- The function `load_from_csv`: a missing file yields the empty list (the
`FileNotFoundError` handler); otherwise `DictReader` skips blank rows and
each remaining row is deserialized in order. -/
def load_from_csv (file : Option CsvFile) : LoadResult :=
  match file with
  | none => .ok []
  | some f => loadRows f.header (f.rows.filter (fun r => !r.isEmpty))

/-- The module-level startup state: `transactions = load_from_csv()`
(wallet.py line 203). -/
def initial_transactions (file : Option CsvFile) : LoadResult := load_from_csv file

/-- The in-memory image of a saved record after one load:
strings unchanged, amount as the float that `float(str(amount))` gives. -/
def loadedOf (r : TRecord) : LRecord :=
  ⟨some r.date, some r.category, .finite ((r.amount : Int) : Rat)⟩

/-! ## Aggregation by category (`plot_graph`, wallet.py lines 149-161)

The aggregation loop of `plot_graph` over `category_totals = {}`:
Python dicts preserve insertion order, so the dict is modelled as an
association list in which updating an existing key keeps its position and
a new key is appended.  The accumulated values are binary64 floats
(`amount = float(row["金額"])`), so each `+=` rounds the exact sum of two
doubles to the nearest double; `addTo` performs exactly that float
addition, not exact rational addition. -/

/-- Exact rational addition, written on numerators and denominators so
that it evaluates in the kernel. -/
def ratAdd (a b : Rat) : Rat :=
  Rat.divInt (a.num * (b.den : Int) + b.num * (a.den : Int)) ((a.den : Int) * (b.den : Int))

/-- Binary64 float addition: the exact sum of the two values rounded to
the nearest double; overflow gives a signed infinity, `nan` propagates,
and opposite infinities give `nan`. -/
def pyFloatAdd : PyFloat → PyFloat → PyFloat
  | .nan, _ => .nan
  | _, .nan => .nan
  | .inf s, .inf t => if s = t then .inf s else .nan
  | .inf s, .finite _ => .inf s
  | .finite _, .inf t => .inf t
  | .finite a, .finite b =>
    match roundToDouble (ratAdd a b) with
    | some r => .finite r
    | none => .inf (decide ((ratAdd a b).num < 0))

/-- The dict update `category_totals[category] += amount` /
`category_totals[category] = amount`: binary64 float addition into the
entry of the category if present, else append a new entry. -/
def addTo : List (String × PyFloat) → String → PyFloat → List (String × PyFloat)
  | [], c, a => [(c, a)]
  | (c0, v) :: rest, c, a =>
    if c0 = c then (c0, pyFloatAdd v a) :: rest else (c0, v) :: addTo rest c a

/-- The aggregation loop: one pass over the records, keyed by category
(`row["カテゴリ"]`), accumulating `float(row["金額"])` with binary64
addition.  Each pair's second component is the float value `float()`
yields for the stored amount: stored floats are unchanged, and stored
integer amounts (truncations of doubles, as produced by `input_amount`)
convert exactly. -/
def category_totals (transaction_list : List (String × PyFloat)) : List (String × PyFloat) :=
  transaction_list.foldl (fun acc r => addTo acc r.1 r.2) []

/-- Dict lookup in the association-list model. -/
def getTotal : List (String × PyFloat) → String → Option PyFloat
  | [], _ => none
  | (c0, v) :: rest, c => if c0 = c then some v else getTotal rest c

/-- Written from the spec: iteration order of the mapping is the order of
each category's first appearance. -/
def keysInOrder (cats : List String) : List String :=
  cats.foldl (fun acc c => if c ∈ acc then acc else acc ++ [c]) []

/-- The amounts of one category's records, in record order. -/
def amountsOf (c : String) (transaction_list : List (String × PyFloat)) : List PyFloat :=
  (transaction_list.filter (fun r => r.1 = c)).map (fun r => r.2)

/-- Written from the spec, rounding-aware: a present category's total is
the binary64 accumulation of its own records' amounts in record order
(the first amount is stored, each later one added with float addition);
a category in no record has no total. -/
def floatTotalFor (c : String) (transaction_list : List (String × PyFloat)) : Option PyFloat :=
  match amountsOf c transaction_list with
  | [] => none
  | a :: rest => some (rest.foldl pyFloatAdd a)

/-! ## Excel export (`save_to_excel`, wallet.py lines 171-199) -/

/-- A spreadsheet cell: `ws.append` receives strings and floats. -/
inductive Cell where
  | str (s : String)
  | num (q : Rat)
deriving DecidableEq

/-- A record as held in the in-memory `transactions` list when exporting:
date and category strings and a numeric amount (`float()` coerces either
an `int` or a `float` amount). -/
structure ERecord where
  date : String
  category : String
  amount : Rat

/-- The sheet content on the success path: the header row, then one row
per record with the amount as a numeric cell. -/
def excelSheet (transaction_list : List ERecord) : List (List Cell) :=
  [Cell.str "日付", Cell.str "カテゴリ", Cell.str "金額"] ::
    transaction_list.map (fun r => [Cell.str r.date, Cell.str r.category, Cell.num r.amount])

/-- The written-row counter `dc`, incremented once per record row. -/
def excelCount (transaction_list : List ERecord) : Nat :=
  transaction_list.foldl (fun dc _ => dc + 1) 0

/-- Outcome of `save_to_excel`: a successful save reporting the sheet and
the count `dc`, or a failure caught by `except Exception` and reported;
`propagated` would be an exception escaping the handler, which the
function never produces. -/
inductive ExcelOutcome where
  | saved (sheet : List (List Cell)) (reported : Nat)
  | errorHandled (msg : String)
  | propagated (msg : String)

/-- The message printed by the `except Exception as e` handler. -/
def excelErrMsg (e : String) : String := "エクセルへ保存中にエラーが発生しました。:" ++ e

/-- The function `save_to_excel`, with the possible failure of the `openpyxl` calls
injected explicitly: `some e` models any I/O or serialization exception
`e` raised while building or saving the workbook. -/
def save_to_excel (transaction_list : List ERecord) (failure : Option String) : ExcelOutcome :=
  match failure with
  | some e => .errorHandled (excelErrMsg e)
  | none => .saved (excelSheet transaction_list) (excelCount transaction_list)

/-- The menu-loop step for choice `"4"` (lines 227-229): runs the export
and leaves `transactions` untouched. -/
def menu_export_step (transactions : List ERecord) (failure : Option String) :
    List ERecord × ExcelOutcome :=
  (transactions, save_to_excel transactions failure)

/-! ## Character and digit-string lemmas -/

theorem charToNat_ofNat_small (k : Nat) (h : k < 128) : (Char.ofNat k).toNat = k := by
  have hv : Nat.isValidChar k := Or.inl (by omega)
  simp [Char.ofNat, hv, Char.toNat, Char.ofNatAux]
  rfl

theorem isDigC_toNat {c : Char} (h : isDigC c = true) : 48 ≤ c.toNat ∧ c.toNat ≤ 57 := by
  simpa [isDigC] using h

theorem natDigsRevF_irrel (fuel : Nat) :
    ∀ (fuel' n : Nat), n ≤ fuel → n ≤ fuel' → natDigsRevF fuel n = natDigsRevF fuel' n := by
  induction fuel with
  | zero =>
    intro fuel' n h _
    have hn : n = 0 := by omega
    subst hn
    cases fuel' <;> simp [natDigsRevF]
  | succ f ih =>
    intro fuel' n h h'
    cases fuel' with
    | zero =>
      have hn : n = 0 := by omega
      subst hn
      simp [natDigsRevF]
    | succ f' =>
      simp only [natDigsRevF]
      by_cases hn : n < 10
      · simp [hn]
      · have hd : n / 10 < n := Nat.div_lt_self (by omega) (by omega)
        have e := ih f' (n / 10) (by omega) (by omega)
        simp [hn, e]

theorem natDigsRev_eq (n : Nat) :
    natDigsRev n =
      (if n < 10 then [Char.ofNat (48 + n)]
       else Char.ofNat (48 + n % 10) :: natDigsRev (n / 10)) := by
  unfold natDigsRev
  cases n with
  | zero => simp [natDigsRevF]
  | succ k =>
    simp only [natDigsRevF]
    by_cases hn : k + 1 < 10
    · simp [hn]
    · have hd : (k + 1) / 10 < k + 1 := Nat.div_lt_self (by omega) (by omega)
      have e := natDigsRevF_irrel k ((k + 1) / 10) ((k + 1) / 10) (by omega) (Nat.le_refl _)
      simp [hn, e]

theorem natDigsRev_digits (n : Nat) : ∀ c ∈ natDigsRev n, isDigC c = true := by
  induction n using Nat.strong_induction_on with
  | _ n ih =>
    intro c hc
    rw [natDigsRev_eq] at hc
    by_cases hn : n < 10
    · simp [hn] at hc
      subst hc
      simp [isDigC, charToNat_ofNat_small (48 + n) (by omega)]
      omega
    · simp [hn] at hc
      rcases hc with hc | hc
      · subst hc
        have h10 : n % 10 < 10 := Nat.mod_lt _ (by omega)
        simp [isDigC, charToNat_ofNat_small (48 + n % 10) (by omega)]
        omega
      · exact ih (n / 10) (Nat.div_lt_self (by omega) (by omega)) c hc

theorem natDigsRev_ne_nil (n : Nat) : natDigsRev n ≠ [] := by
  rw [natDigsRev_eq]
  by_cases hn : n < 10 <;> simp [hn]

theorem val_natDigsRev (n : Nat) :
    (natDigsRev n).reverse.foldl (fun a c => 10 * a + dval c) 0 = n := by
  induction n using Nat.strong_induction_on with
  | _ n ih =>
    rw [natDigsRev_eq]
    by_cases hn : n < 10
    · simp [hn, dval, charToNat_ofNat_small (48 + n) (by omega)]
    · have hd : n / 10 < n := Nat.div_lt_self (by omega) (by omega)
      have h10 : n % 10 < 10 := Nat.mod_lt _ (by omega)
      simp only [hn, if_false, List.reverse_cons]
      rw [List.foldl_append, ih (n / 10) hd]
      simp [dval, charToNat_ofNat_small (48 + n % 10) (by omega)]
      omega

theorem digitsUAux_digits :
    ∀ (ds : List Char) (acc k : Nat), (∀ c ∈ ds, isDigC c = true) →
      digitsUAux acc k ds = (ds.foldl (fun a c => 10 * a + dval c) acc, k + ds.length, []) := by
  intro ds
  induction ds with
  | nil => intro acc k _; simp [digitsUAux]
  | cons c tl ih =>
    intro acc k hds
    have hc := hds c (List.mem_cons_self c tl)
    have htl : ∀ x ∈ tl, isDigC x = true := fun x hx => hds x (List.mem_cons_of_mem _ hx)
    cases tl with
    | nil => simp [digitsUAux, hc]
    | cons d tl2 =>
      have step : digitsUAux acc k (c :: d :: tl2) =
          digitsUAux (10 * acc + dval c) (k + 1) (d :: tl2) := by
        simp [digitsUAux, hc]
      rw [step, ih (10 * acc + dval c) (k + 1) htl]
      simp
      omega

theorem parseUDigits_render (n : Nat) :
    parseUDigits (natDigsRev n).reverse = some (n, (natDigsRev n).length, []) := by
  have hds : ∀ c ∈ (natDigsRev n).reverse, isDigC c = true := by
    intro c hc
    exact natDigsRev_digits n c (List.mem_reverse.mp hc)
  have hne : (natDigsRev n).reverse ≠ [] := by
    simp [natDigsRev_ne_nil n]
  obtain ⟨c, tl, hct⟩ := List.exists_cons_of_ne_nil hne
  have hc : isDigC c = true := hds c (by rw [hct]; exact List.mem_cons_self c tl)
  rw [hct]
  unfold parseUDigits
  simp only [hc, if_true]
  rw [digitsUAux_digits (c :: tl) 0 0 (by rw [← hct]; exact hds), ← hct]
  rw [val_natDigsRev]
  simp [← hct]

theorem trimWS_id (cs : List Char) (h : ∀ c ∈ cs, isWS c = false) : trimWS cs = cs := by
  have step : ∀ (l : List Char), (∀ c ∈ l, isWS c = false) → l.dropWhile isWS = l := by
    intro l hl
    cases l with
    | nil => rfl
    | cons c tl => simp [List.dropWhile_cons, hl c (List.mem_cons_self c tl)]
  unfold trimWS
  rw [step cs h, step cs.reverse (fun c hc => h c (List.mem_reverse.mp hc))]
  exact List.reverse_reverse cs

theorem isWS_of_digit {c : Char} (h : isDigC c = true) : isWS c = false := by
  have := isDigC_toNat h
  simp [isWS]
  omega

theorem pyInt_renderInt (i : Int) : pyInt (renderInt i) = some i := by
  by_cases hi : i < 0
  · have hdigs := natDigsRev_digits (-i).toNat
    have hstr : (renderInt i).data = Char.ofNat 45 :: (natDigsRev (-i).toNat).reverse := by
      simp [renderInt, hi]
    unfold pyInt
    rw [hstr, trimWS_id]
    · have h45 : (Char.ofNat 45).toNat = 45 := charToNat_ofNat_small 45 (by omega)
      have hsgn : parseSign (Char.ofNat 45 :: (natDigsRev (-i).toNat).reverse) =
          (true, (natDigsRev (-i).toNat).reverse) := by
        simp [parseSign, h45]
      rw [hsgn]
      dsimp only
      rw [parseUDigits_render]
      have hti : ((-i).toNat : Int) = -i := Int.toNat_of_nonneg (by omega)
      simp [hti]
    · intro c hc
      rcases List.mem_cons.mp hc with hc | hc
      · subst hc
        simp [isWS, charToNat_ofNat_small 45 (by omega)]
      · exact isWS_of_digit (hdigs c (List.mem_reverse.mp hc))
  · have hdigs := natDigsRev_digits i.toNat
    have hne : (natDigsRev i.toNat).reverse ≠ [] := by simp [natDigsRev_ne_nil]
    obtain ⟨c, tl, hct⟩ := List.exists_cons_of_ne_nil hne
    have hc : isDigC c = true := by
      apply hdigs
      apply List.mem_reverse.mp
      rw [hct]
      exact List.mem_cons_self c tl
    have hcn := isDigC_toNat hc
    have hstr : (renderInt i).data = (natDigsRev i.toNat).reverse := by
      simp [renderInt, hi, renderNat]
    unfold pyInt
    rw [hstr, trimWS_id _ (fun c hc => isWS_of_digit (hdigs c (List.mem_reverse.mp hc)))]
    have h43 : c.toNat ≠ 43 := by omega
    have h45 : c.toNat ≠ 45 := by omega
    have hsgn : parseSign (natDigsRev i.toNat).reverse = (false, (natDigsRev i.toNat).reverse) := by
      rw [hct]
      simp [parseSign, h43, h45]
    rw [hsgn]
    dsimp only
    rw [parseUDigits_render]
    have hti : (i.toNat : Int) = i := Int.toNat_of_nonneg (by omega)
    simp [hti]

/-! ## Helper lemmas for the aggregation loop -/

theorem addTo_map_fst (acc : List (String × PyFloat)) (c : String) (a : PyFloat) :
    (addTo acc c a).map Prod.fst =
      (if c ∈ acc.map Prod.fst then acc.map Prod.fst else acc.map Prod.fst ++ [c]) := by
  induction acc with
  | nil => simp [addTo]
  | cons hd tl ih =>
    obtain ⟨c0, v⟩ := hd
    by_cases h : c0 = c
    · subst h
      simp [addTo]
    · by_cases h2 : c ∈ tl.map Prod.fst
      · simp [addTo, h, ih, h2, Ne.symm h]
      · simp [addTo, h, ih, h2, Ne.symm h]

theorem foldl_totals_fst (l : List (String × PyFloat)) (acc : List (String × PyFloat)) :
    ((l.foldl (fun acc r => addTo acc r.1 r.2) acc).map Prod.fst) =
      ((l.map Prod.fst).foldl (fun ks c => if c ∈ ks then ks else ks ++ [c])
        (acc.map Prod.fst)) := by
  induction l generalizing acc with
  | nil => rfl
  | cons hd tl ih =>
    obtain ⟨c1, a1⟩ := hd
    simp only [List.foldl_cons, List.map_cons]
    rw [ih, addTo_map_fst]

theorem getTotal_addTo (acc : List (String × PyFloat)) (c c1 : String) (a : PyFloat) :
    getTotal (addTo acc c1 a) c =
      (if c1 = c then
        (match getTotal acc c with
         | some v => some (pyFloatAdd v a)
         | none => some a)
       else getTotal acc c) := by
  induction acc with
  | nil =>
    by_cases h : c1 = c <;> simp [addTo, getTotal, h]
  | cons hd tl ih =>
    obtain ⟨c0, v0⟩ := hd
    by_cases h0 : c0 = c1
    · subst h0
      by_cases h : c0 = c <;> simp [addTo, getTotal, h]
    · by_cases h : c0 = c
      · subst h
        have h1 : ¬ c1 = c0 := fun hh => h0 hh.symm
        simp [addTo, getTotal, h0, h1]
      · simp [addTo, getTotal, h0, h, ih]

theorem amountsOf_cons (c c1 : String) (a1 : PyFloat) (tl : List (String × PyFloat)) :
    amountsOf c ((c1, a1) :: tl) =
      (if c1 = c then a1 :: amountsOf c tl else amountsOf c tl) := by
  by_cases h : c1 = c <;> simp [amountsOf, List.filter_cons, h]

theorem foldl_totals_get (l : List (String × PyFloat)) (acc : List (String × PyFloat))
    (c : String) :
    getTotal (l.foldl (fun acc r => addTo acc r.1 r.2) acc) c =
      (match getTotal acc c with
       | some v => some ((amountsOf c l).foldl pyFloatAdd v)
       | none => floatTotalFor c l) := by
  induction l generalizing acc with
  | nil =>
    cases h : getTotal acc c <;> simp [amountsOf, floatTotalFor, h]
  | cons hd tl ih =>
    obtain ⟨c1, a1⟩ := hd
    simp only [List.foldl_cons]
    rw [ih, getTotal_addTo]
    by_cases h1 : c1 = c
    · cases h : getTotal acc c <;>
        simp [h1, h, floatTotalFor, amountsOf_cons]
    · cases h : getTotal acc c <;>
        simp [h1, h, floatTotalFor, amountsOf_cons]

/-! ## Lemmas on the float parser and the CSV store -/

theorem lowerN_of_digit {c : Char} (h : isDigC c = true) : lowerN c = c.toNat := by
  have := isDigC_toNat h
  simp [lowerN]
  omega

theorem floatLitBody_digits (neg : Bool) (n : Nat) :
    floatLitBody neg (natDigsRev n).reverse =
      some (.num (if neg then -(n : Rat) else (n : Rat))) := by
  have hds : ∀ c ∈ (natDigsRev n).reverse, isDigC c = true := fun c hc =>
    natDigsRev_digits n c (List.mem_reverse.mp hc)
  have hne : (natDigsRev n).reverse ≠ [] := by simp [natDigsRev_ne_nil]
  obtain ⟨c, tl, hct⟩ := List.exists_cons_of_ne_nil hne
  have hc : isDigC c = true := hds c (by rw [hct]; exact List.mem_cons_self c tl)
  have hcn := isDigC_toNat hc
  have hlc : lowerN c = c.toNat := lowerN_of_digit hc
  unfold floatLitBody
  have hne1 : ¬((natDigsRev n).reverse.map lowerN = [105, 110, 102] ∨
      (natDigsRev n).reverse.map lowerN = [105, 110, 102, 105, 110, 105, 116, 121]) := by
    rw [hct]
    rintro (heq | heq) <;>
      · simp only [List.map_cons, List.cons.injEq, hlc] at heq
        exact absurd heq.1 (by omega)
  have hne2 : ¬((natDigsRev n).reverse.map lowerN = [110, 97, 110]) := by
    rw [hct]
    intro heq
    simp only [List.map_cons, List.cons.injEq, hlc] at heq
    exact absurd heq.1 (by omega)
  rw [if_neg hne1, if_neg hne2]
  unfold parseNumCore
  rw [parseUDigits_render]
  dsimp only [parseFracExp, parseExpPart]
  have hval : ratOfParts n 0 0 false 0 = (n : Rat) := by
    unfold ratOfParts
    simp [Rat.divInt_one]
  rw [hval]
  simp

theorem floatLitVal_renderInt (i : Int) : floatLitVal (renderInt i) = some (.num (i : Rat)) := by
  by_cases hi : i < 0
  · have hdigs := natDigsRev_digits (-i).toNat
    have hstr : (renderInt i).data = Char.ofNat 45 :: (natDigsRev (-i).toNat).reverse := by
      simp [renderInt, hi]
    unfold floatLitVal
    rw [hstr, trimWS_id]
    · have h45 : (Char.ofNat 45).toNat = 45 := charToNat_ofNat_small 45 (by omega)
      have hsgn : parseSign (Char.ofNat 45 :: (natDigsRev (-i).toNat).reverse) =
          (true, (natDigsRev (-i).toNat).reverse) := by
        simp [parseSign, h45]
      rw [hsgn]
      dsimp only
      rw [floatLitBody_digits]
      have h2 : (((-i).toNat : Nat) : Rat) = -(i : Rat) := by
        have h1 : (((-i).toNat : Nat) : Int) = -i := Int.toNat_of_nonneg (by omega)
        rw [← Int.cast_natCast, h1, Int.cast_neg]
      simp [h2]
    · intro c hc
      rcases List.mem_cons.mp hc with hc | hc
      · subst hc
        simp [isWS, charToNat_ofNat_small 45 (by omega)]
      · exact isWS_of_digit (hdigs c (List.mem_reverse.mp hc))
  · have hdigs := natDigsRev_digits i.toNat
    have hne : (natDigsRev i.toNat).reverse ≠ [] := by simp [natDigsRev_ne_nil]
    obtain ⟨c, tl, hct⟩ := List.exists_cons_of_ne_nil hne
    have hc : isDigC c = true := by
      apply hdigs
      apply List.mem_reverse.mp
      rw [hct]
      exact List.mem_cons_self c tl
    have hcn := isDigC_toNat hc
    have hstr : (renderInt i).data = (natDigsRev i.toNat).reverse := by
      simp [renderInt, hi, renderNat]
    unfold floatLitVal
    rw [hstr, trimWS_id _ (fun c hc => isWS_of_digit (hdigs c (List.mem_reverse.mp hc)))]
    have h43 : c.toNat ≠ 43 := by omega
    have h45 : c.toNat ≠ 45 := by omega
    have hsgn : parseSign (natDigsRev i.toNat).reverse =
        (false, (natDigsRev i.toNat).reverse) := by
      rw [hct]
      simp [parseSign, h43, h45]
    rw [hsgn]
    dsimp only
    rw [floatLitBody_digits]
    have h2 : ((i.toNat : Nat) : Rat) = (i : Rat) := by
      have h1 : ((i.toNat : Nat) : Int) = i := Int.toNat_of_nonneg (by omega)
      rw [← Int.cast_natCast, h1]
    simp [h2]

theorem pyFloat_renderInt (i : Int) (h : roundToDouble (i : Rat) = some (i : Rat)) :
    pyFloat (renderInt i) = some (.finite (i : Rat)) := by
  unfold pyFloat
  rw [floatLitVal_renderInt]
  dsimp only
  rw [h]

theorem readRow_std (d c a : String) :
    readRow ["日付", "カテゴリ", "金額"] [d, c, a] =
      (match pyFloat a with
       | none => RowResult.error .valueError
       | some f => RowResult.ok ⟨some d, some c, f⟩) := rfl

theorem loadRows_map (rs : List TRecord)
    (h : ∀ r ∈ rs, roundToDouble ((r.amount : Rat)) = some ((r.amount : Rat))) :
    loadRows ["日付", "カテゴリ", "金額"]
        (rs.map (fun r => [r.date, r.category, renderInt r.amount])) =
      .ok (rs.map loadedOf) := by
  induction rs with
  | nil => rfl
  | cons r tl ih =>
    simp only [List.map_cons, loadRows]
    rw [readRow_std, pyFloat_renderInt r.amount (h r (List.mem_cons_self r tl))]
    dsimp only
    rw [ih (fun x hx => h x (List.mem_cons_of_mem _ hx))]
    rfl

theorem idxOf?_eq_none_iff (k : String) (l : List String) : idxOf? k l = none ↔ k ∉ l := by
  induction l with
  | nil => simp [idxOf?]
  | cons h t ih =>
    by_cases he : h = k
    · subst he
      simp [idxOf?]
    · simp [idxOf?, he, ih, Option.map_eq_none', fun hh : k = h => he hh.symm]
      exact fun _ hh => he hh.symm

theorem dictGet_not_mem (header row : List String) (k : String) (h : k ∉ header) :
    dictGet header row k = none := by
  unfold dictGet lastIdx
  rw [(idxOf?_eq_none_iff k header.reverse).mpr (by simpa using h)]

theorem dictGet_mem (header row : List String) (k : String) (h : k ∈ header) :
    ∃ o, dictGet header row k = some o := by
  cases hidx : idxOf? k header.reverse with
  | none => exact absurd ((idxOf?_eq_none_iff k header.reverse).mp hidx) (by simpa using h)
  | some j =>
    have hred : dictGet header row k =
        (match row.get? (header.length - 1 - j) with
         | some v => some (some v)
         | none => some none) := by
      unfold dictGet lastIdx
      rw [hidx]
    rw [hred]
    cases hr : row.get? (header.length - 1 - j) with
    | none => exact ⟨none, rfl⟩
    | some v => exact ⟨some v, rfl⟩

theorem loadRows_valueError (header : List String) (rows : List (List String))
    (hmem : "日付" ∈ header ∧ "カテゴリ" ∈ header ∧ "金額" ∈ header)
    (hcell : ∀ r ∈ rows, ∃ s, dictGet header r "金額" = some (some s))
    (hbad : ∃ r ∈ rows, ∃ s, dictGet header r "金額" = some (some s) ∧ pyFloat s = none) :
    loadRows header rows = .error .valueError := by
  induction rows with
  | nil =>
    obtain ⟨r, hr, _⟩ := hbad
    exact absurd hr (List.not_mem_nil r)
  | cons r rest ih =>
    obtain ⟨s, hs⟩ := hcell r (List.mem_cons_self r rest)
    obtain ⟨d, hd⟩ := dictGet_mem header r "日付" hmem.1
    obtain ⟨c, hc⟩ := dictGet_mem header r "カテゴリ" hmem.2.1
    by_cases hps : pyFloat s = none
    · simp only [loadRows]
      rw [show readRow header r = .error .valueError from by simp [readRow, hd, hc, hs, hps]]
    · obtain ⟨fv, hfv⟩ := Option.ne_none_iff_exists'.mp hps
      have hrow : readRow header r = .ok ⟨d, c, fv⟩ := by simp [readRow, hd, hc, hs, hfv]
      simp only [loadRows]
      rw [hrow]
      have hbad2 : ∃ r2 ∈ rest, ∃ s2,
          dictGet header r2 "金額" = some (some s2) ∧ pyFloat s2 = none := by
        obtain ⟨r2, hr2, s2, hs2, hps2⟩ := hbad
        rcases List.mem_cons.mp hr2 with he | he
        · subst he
          rw [hs] at hs2
          have : s = s2 := by simpa using hs2
          subst this
          exact absurd hps2 hps
        · exact ⟨r2, he, s2, hs2, hps2⟩
      rw [ih (fun x hx => hcell x (List.mem_cons_of_mem _ hx)) hbad2]

/-! ## Claim theorems (part 1) -/

/-- C6: for a path naming a nonexistent file, `load_from_csv` returns the
empty sequence rather than an error, and this is the startup seed state of
the in-memory ledger (`transactions = load_from_csv()`). -/
theorem load_missing_file_empty :
    load_from_csv none = .ok [] ∧ initial_transactions none = .ok [] :=
  ⟨rfl, rfl⟩

/-- C9: the amount-entry error branch does not cover all inputs:
`int(float("inf"))` raises `OverflowError`, which escapes the
`except ValueError` handler of `input_amount` and terminates the program,
while `int(float("nan"))` raises `ValueError` and is caught (re-prompt). -/
theorem input_amount_inf_uncaught :
    input_amount_attempt "inf" = .overflowCrash ∧
      input_amount_attempt "nan" = .retry ∧
      (∀ n : Int, input_amount_attempt "inf" ≠ .value n) ∧
      input_amount_attempt "inf" ≠ .retry := by
  refine ⟨by decide, by decide, ?_, by decide⟩
  intro n h
  rw [show input_amount_attempt "inf" = .overflowCrash from by decide] at h
  exact AmountAttempt.noConfusion h

/-- C7: a successful spreadsheet export writes one header row followed by
exactly one row per record, and reports a written-row count equal to the
number of records. -/
theorem save_to_excel_success_rows (transaction_list : List ERecord) :
    save_to_excel transaction_list none =
      .saved (excelSheet transaction_list) transaction_list.length ∧
      excelSheet transaction_list =
        [Cell.str "日付", Cell.str "カテゴリ", Cell.str "金額"] ::
          transaction_list.map
            (fun r => [Cell.str r.date, Cell.str r.category, Cell.num r.amount]) ∧
      (excelSheet transaction_list).length = transaction_list.length + 1 := by
  have hc : ∀ (l : List ERecord) (k : Nat), l.foldl (fun dc _ => dc + 1) k = k + l.length := by
    intro l
    induction l with
    | nil => intro k; simp
    | cons hd tl ih => intro k; simp [ih, Nat.add_comm, Nat.add_assoc, Nat.add_left_comm]
  refine ⟨?_, rfl, by simp [excelSheet]⟩
  simp [save_to_excel, excelCount, hc]

/-- C8: any failure injected during spreadsheet export is caught at the
export boundary, reported with a message containing the underlying error
text, never propagated, and the in-memory record list is unchanged. -/
theorem save_to_excel_failure_handled (transactions : List ERecord) (e : String) :
    menu_export_step transactions (some e) =
      (transactions, .errorHandled (excelErrMsg e)) ∧
      (∃ a b, excelErrMsg e = a ++ e ++ b) ∧
      (∀ msg, save_to_excel transactions (some e) ≠ .propagated msg) := by
  refine ⟨rfl, ⟨"エクセルへ保存中にエラーが発生しました。:", "", ?_⟩, ?_⟩
  · simp [excelErrMsg]
  · intro msg h
    exact ExcelOutcome.noConfusion h

/-- C3 counterexample: the aggregation loop does not total each category
by exact summation.  For two `食費` records with amounts `2^53` and `1`
(both exactly representable, both reachable), the binary64 addition
`2^53 + 1.0` rounds back to `2^53`, so the single entry holds `2^53` and
not the exact sum `2^53 + 1 = 9007199254740993`. -/
theorem plot_graph_totals_cex :
    category_totals [("食費", PyFloat.finite 9007199254740992), ("食費", PyFloat.finite 1)] =
      [("食費", PyFloat.finite 9007199254740992)] ∧
      (9007199254740992 : Rat) + 1 = 9007199254740993 ∧
      category_totals [("食費", PyFloat.finite 9007199254740992), ("食費", PyFloat.finite 1)] ≠
        [("食費", PyFloat.finite 9007199254740993)] := by
  refine ⟨by decide, by norm_num, by decide⟩

/-- C3 (amended): aggregation by category as performed by `plot_graph`,
with binary64 accumulation: the empty list gives an empty mapping, two
records of one category give a single entry holding their float sum
(`100 + 50` yields exactly `150`), each present category's entry is the
binary64 accumulation, in record order, of exactly its own records'
amounts, absent categories are absent, and iteration order is the order
of first appearance. -/
theorem plot_graph_category_totals (rows : List (String × PyFloat)) (c cat : String)
    (a b : PyFloat) :
    category_totals [] = [] ∧
      category_totals [(cat, a), (cat, b)] = [(cat, pyFloatAdd a b)] ∧
      category_totals [("食費", PyFloat.finite 100), ("食費", PyFloat.finite 50)] =
        [("食費", PyFloat.finite 150)] ∧
      (category_totals rows).map Prod.fst = keysInOrder (rows.map Prod.fst) ∧
      getTotal (category_totals rows) c = floatTotalFor c rows := by
  refine ⟨rfl, ?_, by decide, ?_, ?_⟩
  · simp [category_totals, addTo]
  · exact foldl_totals_fst rows []
  · rw [category_totals, foldl_totals_get rows [] c]
    rfl

/-! ## Claim theorems (part 2) -/

/-- C1 counterexample: the round trip does not preserve every valid record.
For the single record with amount `2^53 + 1 = 9007199254740993`, saving
writes the decimal string and loading parses it with `float()`, which
rounds to the nearest binary64 value `9007199254740992`, so the loaded
sequence differs from the saved one in the amount's numeric value. -/
theorem csv_round_trip_cex :
    load_from_csv (some (save_to_csv [⟨"2025/01/01", "食費", 9007199254740993⟩])) =
      .ok [⟨some "2025/01/01", some "食費", .finite 9007199254740992⟩] ∧
      load_from_csv (some (save_to_csv [⟨"2025/01/01", "食費", 9007199254740993⟩])) ≠
        .ok ([(⟨"2025/01/01", "食費", 9007199254740993⟩ : TRecord)].map loadedOf) := by
  constructor
  · decide
  · decide

/-- C1 (amended): for every non-empty sequence of valid records whose
amounts are exactly representable as binary64 floats, `save_to_csv`
followed by `load_from_csv` yields a sequence equal in content (date
string, category string, amount as a numeric value) and order; the loaded
amounts are floats carrying the same numeric value. -/
theorem csv_round_trip (rs : List TRecord) (_h1 : rs ≠ [])
    (h2 : ∀ r ∈ rs, roundToDouble ((r.amount : Rat)) = some ((r.amount : Rat))) :
    load_from_csv (some (save_to_csv rs)) = .ok (rs.map loadedOf) := by
  unfold load_from_csv save_to_csv
  dsimp only
  have hfil : ((rs.map (fun r => [r.date, r.category, renderInt r.amount])).filter
      (fun r => !r.isEmpty)) = rs.map (fun r => [r.date, r.category, renderInt r.amount]) := by
    apply List.filter_eq_self.mpr
    intro a ha
    obtain ⟨r, _, rfl⟩ := List.mem_map.mp ha
    simp
  rw [hfil]
  exact loadRows_map rs h2

/-- C1 witness: a concrete one-record round trip through the store. -/
theorem csv_round_trip_witness :
    load_from_csv (some (save_to_csv [⟨"2025/01/01", "食費", 100⟩])) =
      .ok [⟨some "2025/01/01", some "食費", .finite 100⟩] := by
  have h := csv_round_trip [⟨"2025/01/01", "食費", 100⟩] (by decide)
    (by
      intro r hr
      rw [List.mem_singleton] at hr
      subst hr
      decide)
  rw [h]
  decide

/-- C4: one attempt of category selection: an in-range integer `i` (as the
typed string) returns `categories[i-1]`; an out-of-range integer is
rejected (re-prompt), and a string `int()` cannot parse is rejected
(re-prompt). -/
theorem input_category_attempt_spec (categories : List String) (i : Int) (s : String) :
    (1 ≤ i → i ≤ (categories.length : Int) →
      input_category_attempt (renderInt i) categories = categories.get? (i - 1).toNat ∧
        (categories.get? (i - 1).toNat).isSome = true) ∧
      ((i < 1 ∨ (categories.length : Int) < i) →
        input_category_attempt (renderInt i) categories = none) ∧
      (pyInt s = none → input_category_attempt s categories = none) := by
  refine ⟨?_, ?_, ?_⟩
  · intro h1 h2
    unfold input_category_attempt
    rw [pyInt_renderInt]
    dsimp only
    rw [if_pos (by omega : 0 ≤ i - 1 ∧ i - 1 < (categories.length : Int))]
    refine ⟨rfl, ?_⟩
    have hlt : (i - 1).toNat < categories.length := by omega
    have hlt2 : i.toNat - 1 < categories.length := by omega
    simp [List.get?_eq_getElem?, hlt, hlt2]
  · intro h
    unfold input_category_attempt
    rw [pyInt_renderInt]
    dsimp only
    rw [if_neg (by omega : ¬(0 ≤ i - 1 ∧ i - 1 < (categories.length : Int)))]
  · intro h
    unfold input_category_attempt
    rw [h]

/-- C4 witness: the five-category menu of `add_transaction`: input `2`
selects `交通費`, input `7` and input `abc` are rejected. -/
theorem input_category_attempt_witness :
    input_category_attempt "2" ["食費", "交通費", "日用品", "趣味/交際費", "その他"] =
        some "交通費" ∧
      input_category_attempt "7" ["食費", "交通費", "日用品", "趣味/交際費", "その他"] = none ∧
      input_category_attempt "abc" ["食費", "交通費", "日用品", "趣味/交際費", "その他"] =
        none := by
  refine ⟨?_, ?_, ?_⟩
  · have h :=
      ((input_category_attempt_spec ["食費", "交通費", "日用品", "趣味/交際費", "その他"] 2
        "").1 (by decide) (by decide)).1
    rw [show renderInt 2 = "2" from by decide] at h
    rw [h]
    decide
  · have h :=
      (input_category_attempt_spec ["食費", "交通費", "日用品", "趣味/交際費", "その他"] 7
        "").2.1 (by right; decide)
    rw [show renderInt 7 = "7" from by decide] at h
    exact h
  · exact
      (input_category_attempt_spec ["食費", "交通費", "日用品", "趣味/交際費", "その他"] 1
        "abc").2.2 (by decide)

/-- C5 counterexample: amount entry is not truncation of the typed decimal
number: `"0.99999999999999999999"` denotes `(10^20 - 1) / 10^20`, whose
truncation toward zero is `0`, but `float()` rounds it to `1.0` and the
attempt returns `1`. -/
theorem input_amount_attempt_cex :
    floatLitVal "0.99999999999999999999" =
        some (.num (mkRat ((10 : Int) ^ 20 - 1) (10 ^ 20))) ∧
      truncRat (mkRat ((10 : Int) ^ 20 - 1) (10 ^ 20)) = 0 ∧
      input_amount_attempt "0.99999999999999999999" = .value 1 := by
  refine ⟨by decide, by decide, by decide⟩

/-- C5 (amended): for every input string that parses as a decimal number,
amount entry returns that number rounded to the nearest binary64 float and
then truncated toward zero — in particular `"123.9"` yields `123` — and
for every string `float()` cannot parse it fails with a caught
`ValueError` (re-prompt) instead of returning a value. -/
theorem input_amount_attempt_spec :
    (∀ (s : String) (q r : Rat), floatLitVal s = some (.num q) → roundToDouble q = some r →
      input_amount_attempt s = .value (truncRat r)) ∧
      input_amount_attempt "123.9" = .value 123 ∧
      (∀ s : String, floatLitVal s = none → input_amount_attempt s = .retry) := by
  refine ⟨?_, by decide, ?_⟩
  · intro s q r h1 h2
    unfold input_amount_attempt pyFloat
    rw [h1]
    dsimp only
    rw [h2]
  · intro s h
    unfold input_amount_attempt pyFloat
    rw [h]

/-- C5 witness: `"12.5"` parses to `25/2`, which is exactly representable,
and the attempt returns its truncation `12`. -/
theorem input_amount_attempt_witness : input_amount_attempt "12.5" = .value 12 := by
  have h := input_amount_attempt_spec.1 "12.5" (mkRat 25 2) (mkRat 25 2)
    (by decide) (by decide)
  rw [h]
  decide

/-- C10: loading an existing CSV file with malformed content raises an
uncaught exception instead of returning a sequence: a header missing one
of the three expected columns raises `KeyError` on the first data row, and
a `金額` field `float()` cannot parse raises `ValueError`; only the
missing-file case is handled. -/
theorem load_from_csv_malformed (f : CsvFile) :
    ((f.rows.filter (fun r => !r.isEmpty)) ≠ [] →
      ("日付" ∉ f.header ∨ "カテゴリ" ∉ f.header ∨ "金額" ∉ f.header) →
      load_from_csv (some f) = .error .keyError) ∧
      (("日付" ∈ f.header ∧ "カテゴリ" ∈ f.header ∧ "金額" ∈ f.header) →
        (∀ r ∈ f.rows.filter (fun r => !r.isEmpty),
          ∃ s, dictGet f.header r "金額" = some (some s)) →
        (∃ r ∈ f.rows.filter (fun r => !r.isEmpty),
          ∃ s, dictGet f.header r "金額" = some (some s) ∧ pyFloat s = none) →
        load_from_csv (some f) = .error .valueError) := by
  constructor
  · intro hne hmiss
    unfold load_from_csv
    dsimp only
    obtain ⟨r, rest, hsplit⟩ := List.exists_cons_of_ne_nil hne
    rw [hsplit]
    have hr : readRow f.header r = .error .keyError := by
      rcases hmiss with hm | hm | hm
      · simp [readRow, dictGet_not_mem _ r _ hm]
      · cases hd : dictGet f.header r "日付" with
        | none => simp [readRow, hd]
        | some d => simp [readRow, hd, dictGet_not_mem _ r _ hm]
      · cases hd : dictGet f.header r "日付" with
        | none => simp [readRow, hd]
        | some d =>
          cases hc : dictGet f.header r "カテゴリ" with
          | none => simp [readRow, hd, hc]
          | some c => simp [readRow, hd, hc, dictGet_not_mem _ r _ hm]
    simp [loadRows, hr]
  · intro hmem hcell hbad
    unfold load_from_csv
    exact loadRows_valueError f.header _ hmem hcell hbad

/-- C10 witness: a file whose header lacks `金額` raises `KeyError`; a
file with the full header and amount `"abc"` raises `ValueError`. -/
theorem load_from_csv_malformed_witness :
    load_from_csv (some ⟨["日付", "カテゴリ"], [["2025/01/01", "食費"]]⟩) =
        .error .keyError ∧
      load_from_csv (some ⟨["日付", "カテゴリ", "金額"], [["2025/01/01", "食費", "abc"]]⟩) =
        .error .valueError := by
  constructor
  · exact (load_from_csv_malformed ⟨["日付", "カテゴリ"], [["2025/01/01", "食費"]]⟩).1
      (by decide) (Or.inr (Or.inr (by decide)))
  · refine (load_from_csv_malformed
      ⟨["日付", "カテゴリ", "金額"], [["2025/01/01", "食費", "abc"]]⟩).2
      ⟨by decide, by decide, by decide⟩ ?_ ?_
    · intro r hr
      have : r = ["2025/01/01", "食費", "abc"] := by
        simpa using hr
      subst this
      exact ⟨"abc", by decide⟩
    · exact ⟨["2025/01/01", "食費", "abc"], by decide, "abc", by decide, by decide⟩

/-! ## The date pattern equivalence (claim C2)

`mdParse` (the compiled `strptime` month/day groups plus the `datetime`
range check) agrees with the declarative pattern `matchesMD` on every
input, for any year at most 9999. -/

theorem daysInMonth_le (y m : Nat) : daysInMonth y m ≤ 31 := by
  unfold daysInMonth
  split_ifs <;> omega

theorem mdParse_eq_matchesMD (y : Nat) (hy : y ≤ 9999) (rest : List Char) :
    mdParse y rest = matchesMD y rest := by
  apply Bool.eq_iff_iff.mpr
  rcases rest with _ | ⟨a, _ | ⟨b, _ | ⟨c, _ | ⟨d, _ | ⟨e, _ | ⟨f, tail⟩⟩⟩⟩⟩⟩
  · simp [mdParse, monthParse, matchesMD]
  · by_cases hC : 49 ≤ a.toNat ∧ a.toNat ≤ 57 <;>
      simp [mdParse, monthParse, matchesMD, hC]
  · by_cases hA : a.toNat = 49 ∧ 48 ≤ b.toNat ∧ b.toNat ≤ 50
    · simp [mdParse, monthParse, matchesMD, hA]
    · by_cases hB : a.toNat = 48 ∧ 49 ≤ b.toNat ∧ b.toNat ≤ 57
      · simp [mdParse, monthParse, matchesMD, hA, hB]
      · by_cases hC : 49 ≤ a.toNat ∧ a.toNat ≤ 57 <;>
          simp [mdParse, monthParse, dayParse, matchesMD, hA, hB, hC]
  · -- rest = [a, b, c]
    by_cases hA : a.toNat = 49 ∧ 48 ≤ b.toNat ∧ b.toNat ≤ 50
    · have hsb : ¬b.toNat = 47 := by omega
      simp [mdParse, monthParse, dayParse, matchesMD, mdOk, isSlash, hA, hsb]
    · by_cases hB : a.toNat = 48 ∧ 49 ≤ b.toNat ∧ b.toNat ≤ 57
      · have hsb : ¬b.toNat = 47 := by omega
        simp [mdParse, monthParse, dayParse, matchesMD, mdOk, isSlash, hA, hB, hsb]
      · by_cases hC : 49 ≤ a.toNat ∧ a.toNat ≤ 57
        · by_cases hsb : b.toNat = 47
          · by_cases hc1 : 49 ≤ c.toNat ∧ c.toNat ≤ 57
            · simp [mdParse, monthParse, dayParse, matchesMD, mdOk, allDig, partVal,
                dateOkNums, isSlash, isDigC, dval, hA, hB, hC, hsb, hc1]
              omega
            · simp [mdParse, monthParse, dayParse, matchesMD, mdOk, allDig, partVal,
                dateOkNums, isSlash, isDigC, dval, hA, hB, hC, hsb, hc1]
              omega
          · simp [mdParse, monthParse, dayParse, matchesMD, mdOk, isSlash, hA, hB, hC, hsb]
        · simp [mdParse, monthParse, matchesMD, mdOk, allDig, partVal, dateOkNums,
            isSlash, isDigC, dval, hA, hB, hC]
          omega
  · -- rest = [a, b, c, d]
    by_cases hA : a.toNat = 49 ∧ 48 ≤ b.toNat ∧ b.toNat ≤ 50
    · have hsb : ¬b.toNat = 47 := by omega
      by_cases hsc : c.toNat = 47
      · by_cases hd1 : 49 ≤ d.toNat ∧ d.toNat ≤ 57
        · simp [mdParse, monthParse, dayParse, matchesMD, mdOk, allDig, partVal,
            dateOkNums, isSlash, isDigC, dval, hA, hA.1, hsb, hsc, hd1]
          omega
        · simp [mdParse, monthParse, dayParse, matchesMD, mdOk, allDig, partVal,
            dateOkNums, isSlash, isDigC, dval, hA, hA.1, hsb, hsc, hd1]
          omega
      · simp [mdParse, monthParse, dayParse, matchesMD, mdOk, isSlash, hA, hsb, hsc]
    · by_cases hB : a.toNat = 48 ∧ 49 ≤ b.toNat ∧ b.toNat ≤ 57
      · have hsb : ¬b.toNat = 47 := by omega
        by_cases hsc : c.toNat = 47
        · by_cases hd1 : 49 ≤ d.toNat ∧ d.toNat ≤ 57
          · simp [mdParse, monthParse, dayParse, matchesMD, mdOk, allDig, partVal,
              dateOkNums, isSlash, isDigC, dval, hA, hB, hB.1, hsb, hsc, hd1]
            omega
          · simp [mdParse, monthParse, dayParse, matchesMD, mdOk, allDig, partVal,
              dateOkNums, isSlash, isDigC, dval, hA, hB, hB.1, hsb, hsc, hd1]
            omega
        · simp [mdParse, monthParse, dayParse, matchesMD, mdOk, isSlash, hA, hB, hsb, hsc]
      · by_cases hC : 49 ≤ a.toNat ∧ a.toNat ≤ 57
        · by_cases hsb : b.toNat = 47
          · by_cases hD1 : c.toNat = 51 ∧ (d.toNat = 48 ∨ d.toNat = 49)
            · simp [mdParse, monthParse, dayParse, matchesMD, mdOk, allDig, partVal,
                dateOkNums, isSlash, isDigC, dval, hA, hB, hC, hsb, hD1, hD1.1]
              omega
            · by_cases hD2 : (49 ≤ c.toNat ∧ c.toNat ≤ 50) ∧ 48 ≤ d.toNat ∧ d.toNat ≤ 57
              · simp [mdParse, monthParse, dayParse, matchesMD, mdOk, allDig, partVal,
                  dateOkNums, isSlash, isDigC, dval, hA, hB, hC, hsb, hD1, hD2]
                omega
              · by_cases hD3 : c.toNat = 48 ∧ 49 ≤ d.toNat ∧ d.toNat ≤ 57
                · simp [mdParse, monthParse, dayParse, matchesMD, mdOk, allDig, partVal,
                    dateOkNums, isSlash, isDigC, dval, hA, hB, hC, hsb, hD1, hD2, hD3,
                    hD3.1]
                  omega
                · have hdm := daysInMonth_le y (a.toNat - 48)
                  simp [mdParse, monthParse, dayParse, matchesMD, mdOk, allDig, partVal,
                    dateOkNums, isSlash, isDigC, dval, hA, hB, hC, hsb, hD1, hD2, hD3]
                  omega
          · simp [mdParse, monthParse, dayParse, matchesMD, mdOk, allDig, partVal,
              dateOkNums, isSlash, isDigC, dval, hA, hB, hC, hsb]
            omega
        · simp [mdParse, monthParse, matchesMD, mdOk, allDig, partVal, dateOkNums,
            isSlash, isDigC, dval, hA, hB, hC]
          omega
  · -- rest = [a, b, c, d, e]
    by_cases hA : a.toNat = 49 ∧ 48 ≤ b.toNat ∧ b.toNat ≤ 50
    · by_cases hsc : c.toNat = 47
      · by_cases hD1 : d.toNat = 51 ∧ (e.toNat = 48 ∨ e.toNat = 49)
        · simp [mdParse, monthParse, dayParse, matchesMD, mdOk, allDig, partVal,
            dateOkNums, isSlash, isDigC, dval, hA, hA.1, hsc, hD1, hD1.1]
          omega
        · by_cases hD2 : (49 ≤ d.toNat ∧ d.toNat ≤ 50) ∧ 48 ≤ e.toNat ∧ e.toNat ≤ 57
          · simp [mdParse, monthParse, dayParse, matchesMD, mdOk, allDig, partVal,
              dateOkNums, isSlash, isDigC, dval, hA, hA.1, hsc, hD1, hD2]
            omega
          · by_cases hD3 : d.toNat = 48 ∧ 49 ≤ e.toNat ∧ e.toNat ≤ 57
            · simp [mdParse, monthParse, dayParse, matchesMD, mdOk, allDig, partVal,
                dateOkNums, isSlash, isDigC, dval, hA, hA.1, hsc, hD1, hD2, hD3, hD3.1]
              omega
            · have hdm := daysInMonth_le y (10 + (b.toNat - 48))
              simp [mdParse, monthParse, dayParse, matchesMD, mdOk, allDig, partVal,
                dateOkNums, isSlash, isDigC, dval, hA, hA.1, hsc, hD1, hD2, hD3]
              omega
      · simp [mdParse, monthParse, dayParse, matchesMD, mdOk, isSlash, hA, hsc]
    · by_cases hB : a.toNat = 48 ∧ 49 ≤ b.toNat ∧ b.toNat ≤ 57
      · by_cases hsc : c.toNat = 47
        · by_cases hD1 : d.toNat = 51 ∧ (e.toNat = 48 ∨ e.toNat = 49)
          · simp [mdParse, monthParse, dayParse, matchesMD, mdOk, allDig, partVal,
              dateOkNums, isSlash, isDigC, dval, hA, hB, hB.1, hsc, hD1, hD1.1]
            omega
          · by_cases hD2 : (49 ≤ d.toNat ∧ d.toNat ≤ 50) ∧ 48 ≤ e.toNat ∧ e.toNat ≤ 57
            · simp [mdParse, monthParse, dayParse, matchesMD, mdOk, allDig, partVal,
                dateOkNums, isSlash, isDigC, dval, hA, hB, hB.1, hsc, hD1, hD2]
              omega
            · by_cases hD3 : d.toNat = 48 ∧ 49 ≤ e.toNat ∧ e.toNat ≤ 57
              · simp [mdParse, monthParse, dayParse, matchesMD, mdOk, allDig, partVal,
                  dateOkNums, isSlash, isDigC, dval, hA, hB, hB.1, hsc, hD1, hD2, hD3,
                  hD3.1]
                omega
              · have hdm := daysInMonth_le y (b.toNat - 48)
                simp [mdParse, monthParse, dayParse, matchesMD, mdOk, allDig, partVal,
                  dateOkNums, isSlash, isDigC, dval, hA, hB, hB.1, hsc, hD1, hD2, hD3]
                omega
        · simp [mdParse, monthParse, dayParse, matchesMD, mdOk, isSlash, hA, hB, hsc]
      · by_cases hC : 49 ≤ a.toNat ∧ a.toNat ≤ 57
        · simp [mdParse, monthParse, dayParse, matchesMD, mdOk, allDig, partVal,
            dateOkNums, isSlash, isDigC, dval, hA, hB, hC]
          omega
        · simp [mdParse, monthParse, matchesMD, mdOk, allDig, partVal, dateOkNums,
            isSlash, isDigC, dval, hA, hB, hC]
          omega
  · -- rest of length at least 6
    by_cases hA : a.toNat = 49 ∧ 48 ≤ b.toNat ∧ b.toNat ≤ 50
    · simp [mdParse, monthParse, dayParse, matchesMD, hA]
    · by_cases hB : a.toNat = 48 ∧ 49 ≤ b.toNat ∧ b.toNat ≤ 57
      · simp [mdParse, monthParse, dayParse, matchesMD, hA, hB]
      · by_cases hC : 49 ≤ a.toNat ∧ a.toNat ≤ 57 <;>
          simp [mdParse, monthParse, dayParse, matchesMD, hA, hB, hC]

/-- C2 counterexample: `input_date` accepts `"2025/1/1"`, which does not
match the zero-padded `YYYY/MM/DD` pattern the claim asserts to be
exactly the accepted set. -/
theorem input_date_cex :
    input_date_accepts "2025/1/1" = true ∧ matchesPaddedDate "2025/1/1" = false := by
  constructor
  · decide
  · decide

/-- C2 (amended): one attempt of `input_date` accepts a string exactly
when it is year/month/day with a zero-padded 4-digit year, month and day
of one or two digits each (zero-padding optional), and the month and day
forming a real calendar date (year at least 0001). -/
theorem input_date_accepts_iff (s : String) :
    input_date_accepts s = true ↔ matchesFlexDate s = true := by
  unfold input_date_accepts matchesFlexDate
  rcases hsd : s.data with _ | ⟨y1, _ | ⟨y2, _ | ⟨y3, _ | ⟨y4, _ | ⟨c, rest⟩⟩⟩⟩⟩ <;>
    try simp
  intro h1 h2 h3 h4 _h5
  have hy : yval y1 y2 y3 y4 ≤ 9999 := by
    have b1 := isDigC_toNat h1
    have b2 := isDigC_toNat h2
    have b3 := isDigC_toNat h3
    have b4 := isDigC_toNat h4
    unfold yval dval
    omega
  rw [mdParse_eq_matchesMD (yval y1 y2 y3 y4) hy rest]

end Wallet
